import Mathlib

/-!
Shallow embedding of `src/clinical_data_analysis.py`.

The script is a one-shot pandas batch analysis.  The embedding below models
its core computations over explicit in-memory lists:

* text matching (`re` semantics) over lists of characters, with case
  insensitivity modelled by lowercasing both sides;
* `compute_age_years` over a concrete calendar-date record, with missing
  birth dates as `Option`;
* the clinical description classifier `build_clinical_filter` and its inner
  predicate `is_clinical`, with the compiled regular-expression matchers of
  the caller-supplied textual patterns represented as an abstract fallible
  compile function (`re.compile` either raises at construction time or
  yields a search predicate);
* the aggregation pipeline: `pd.cut` age bucketing (`AGE_GROUP`),
  `value_counts`, the `PCT` columns of the distribution tables, and the
  gender/description cross tabulation.  Pandas sorts are modelled by
  `List.insertionSort`; since the single-key `Series.sort_values` (pandas
  default kind, quicksort) does not guarantee any particular order among
  tied keys, sorted results are used only through order-insensitive
  consequences (membership, multisets of counts) or, for the stable
  multi-key lexsort of the cross tabulation, through non-strict
  sortedness.  `groupby` sorts group keys ascending, and `groupby` on a
  nullable key drops null-keyed rows, as pandas does by default.

Rounding of the percentage columns (`Series.round(1)`) is modelled in exact
rational arithmetic with round-half-to-even, numpy's rounding mode.
-/

namespace ClinicalDataAnalysis

/-- Lowercases every character of a list, modelling `re.IGNORECASE` matching
by comparing lowercased text. -/
def lowerList (l : List Char) : List Char := l.map Char.toLower

/-- Whether `needle` occurs as a contiguous substring of `hay`; this is the
semantics of `re.search` for a literal (escaped) needle: a match anywhere in
the text, not a full-string match. -/
def containsSub (hay needle : List Char) : Bool :=
  hay.tails.any fun t => needle.isPrefixOf t

/-- Case-insensitive substring search: the semantics of
`re.compile(re.escape(k), re.IGNORECASE).search(hay)` for one keyword `k`
(line 63 escapes each keyword, so it is matched literally). -/
def ciSearch (needle : String) (hay : List Char) : Bool :=
  containsSub (lowerList hay) (lowerList needle.data)

/-- Python `str.strip()`: removes leading and trailing whitespace
(line 72 of the source). -/
def stripChars (l : List Char) : List Char :=
  ((l.dropWhile Char.isWhitespace).reverse.dropWhile Char.isWhitespace).reverse

/-- The curated default exclude keyword list of `build_clinical_filter`
(lines 54-60 of the source), substituted when the caller passes
`exclude_keywords=None`. -/
def default_exclude_keywords : List String :=
  [ "employment", "full-time", "part-time", "labor force", "occupation",
    "social", "social isolation", "limited social contact",
    "housing", "homeless", "education", "school",
    "medication review", "review due", "screening", "counseling",
    "referral", "administrative", "situation", "finding of" ]

/-- Compilation of the keyword list into one matcher (lines 63-64):
`kw_pattern = "|".join(re.escape(k) for k in exclude_keywords if k)` and
`kw_re = re.compile(kw_pattern, re.IGNORECASE) if kw_pattern else None`.
Falsy (empty) keywords are dropped; if no keyword remains the pattern is
empty (falsy) and no matcher is built.  The alternation of escaped literals
matches iff some keyword occurs as a case-insensitive substring. -/
def kwMatcher (exclude_keywords : List String) : Option (List Char → Bool) :=
  let ks := exclude_keywords.filter fun k => k ≠ ""
  if ks.isEmpty then none else some fun d => ks.any fun k => ciSearch k d

/-- Search through an optional compiled matcher: `m and m.search(d)`;
a missing matcher never matches. -/
def searchOpt (m : Option (List Char → Bool)) (d : List Char) : Bool :=
  match m with
  | none => false
  | some f => f d

/-- The inner predicate `is_clinical` of `build_clinical_filter`
(lines 69-86).  `None`/NaN descriptions are modelled as `Option.none`.
The description is stripped; a blank result is not clinical; then the
include matcher is enforced first, then the keyword matcher, then the
exclude matcher; a description surviving all checks is clinical. -/
def is_clinical (in_re kw_re ex_re : Option (List Char → Bool))
    (desc : Option String) : Bool :=
  match desc with
  | none => false
  | some s =>
    let d := stripChars s.data
    if d.isEmpty then false
    else if in_re.isSome && !(searchOpt in_re d) then false
    else if searchOpt kw_re d then false
    else if searchOpt ex_re d then false
    else true

/-- Compilation of one optional caller-supplied textual pattern
(lines 66-67): `re.compile(p, re.IGNORECASE) if p else None`.  A falsy
(absent or empty) pattern yields no matcher; otherwise `compile` is invoked
and may fail (an invalid regular expression raises `re.error`). -/
def compileOpt (compile : String → Except String (List Char → Bool)) :
    Option String → Except String (Option (List Char → Bool))
  | none => Except.ok none
  | some s => if s = "" then Except.ok none else (compile s).map some

/-- The classifier builder `build_clinical_filter` (lines 42-88).
`exclude_keywords=None` selects the default keyword list; the keyword
matcher is compiled from escaped literals and cannot fail; the
exclude pattern is compiled before the include pattern (lines 66-67), both
at construction time, so an invalid pattern surfaces before any description
is evaluated.  On success the built predicate `is_clinical` is returned. -/
def build_clinical_filter (compile : String → Except String (List Char → Bool))
    (exclude_keywords : Option (List String))
    (exclude_regex include_regex : Option String) :
    Except String (Option String → Bool) :=
  let kw_re := kwMatcher (exclude_keywords.getD default_exclude_keywords)
  (compileOpt compile exclude_regex).bind fun ex_re =>
    (compileOpt compile include_regex).bind fun in_re =>
      Except.ok (is_clinical in_re kw_re ex_re)

/-- A calendar date as used by `datetime.date`: year, month, day. -/
structure Date where
  year : Int
  month : Nat
  day : Nat
deriving DecidableEq, Repr

/-- Python tuple comparison `(a.month, a.day) < (b.month, b.day)`:
lexicographic order on the pair. -/
def pairLtB (x y : Nat × Nat) : Bool :=
  decide (x.1 < y.1 ∨ (x.1 = y.1 ∧ x.2 < y.2))

/-- Lexicographic comparison of full dates, used to express that one date
falls strictly before another. -/
def tripleLtB (x y : Date) : Bool :=
  decide (x.year < y.year ∨ (x.year = y.year ∧
    pairLtB (x.month, x.day) (y.month, y.day) = true))

/-- The age computation `compute_age_years` (lines 31-40): `NaT` birth dates
(modelled as `none`) propagate to a null age; otherwise the age is
`a.year - b.year - ((a.month, a.day) < (b.month, b.day))`, the exact
completed-years difference (the boolean decrement subtracts one when the
birthday has not yet been reached in the as-of year). -/
def compute_age_years : Option Date → Date → Option Int
  | none, _ => none
  | some b, a =>
    some (a.year - b.year -
      (if pairLtB (a.month, a.day) (b.month, b.day) then 1 else 0))

/-- The Gregorian leap-year rule, as implemented by `datetime.date`. -/
def isLeapYear (y : Int) : Bool :=
  y % 4 == 0 && (y % 100 != 0 || y % 400 == 0)

/-- Days in a month of the Gregorian calendar. -/
def daysInMonth (y : Int) : Nat → Nat
  | 2 => if isLeapYear y then 29 else 28
  | 4 => 30
  | 6 => 30
  | 9 => 30
  | 11 => 30
  | _ => 31

/-- The calendar day immediately before `d`, used to express the move of the
as-of date one day earlier across the birthday boundary. -/
def prevDay (d : Date) : Date :=
  if 1 < d.day then ⟨d.year, d.month, d.day - 1⟩
  else if 1 < d.month then ⟨d.year, d.month - 1, daysInMonth d.year (d.month - 1)⟩
  else ⟨d.year - 1, 12, 31⟩

/-- Round-half-to-even on an exact rational, numpy's rounding mode for
`Series.round`. -/
def roundHalfEven (q : ℚ) : ℤ :=
  if q - ⌊q⌋ < 1/2 then ⌊q⌋
  else if (1 : ℚ)/2 < q - ⌊q⌋ then ⌊q⌋ + 1
  else if ⌊q⌋ % 2 = 0 then ⌊q⌋ else ⌊q⌋ + 1

/-- Rounding to one decimal place, `Series.round(1)`. -/
def round1 (q : ℚ) : ℚ := (roundHalfEven (10 * q) : ℚ) / 10

/-- The `PCT` column of a distribution table (lines 129 and 160 of the
source): `(COUNT / COUNT.sum() * 100).round(1)` applied to the row counts. -/
def pctColumn (counts : List Nat) : List ℚ :=
  counts.map fun c : Nat => round1 ((c : ℚ) / (counts.sum : ℚ) * 100)

/-- The age bucketing `pd.cut(AGE, bins=[0, 18, 40, 65, 120],
labels=["0-17", "18-39", "40-64", "65+"], right=False)` (lines 112-114):
half-open intervals, left-closed right-open; a null age or an age outside
every interval receives no bucket (NaN). -/
def AGE_GROUP : Option Int → Option String
  | none => none
  | some a =>
    if 0 ≤ a ∧ a < 18 then some "0-17"
    else if 18 ≤ a ∧ a < 40 then some "18-39"
    else if 40 ≤ a ∧ a < 65 then some "40-64"
    else if 65 ≤ a ∧ a < 120 then some "65+"
    else none

/-- Pandas `Series.value_counts(dropna=False)`: one row per distinct value
(null included) with its number of occurrences, sorted descending by
count. -/
def value_counts {α : Type} [BEq α] [DecidableEq α] (l : List α) :
    List (α × Nat) :=
  List.insertionSort (fun x y : α × Nat => y.2 ≤ x.2)
    (l.dedup.map fun k => (k, l.count k))

/-- The age-distribution table (lines 123-128): `value_counts(dropna=False)`
of the `AGE_GROUP` column. -/
def age_dist (ages : List (Option Int)) : List (Option String × Nat) :=
  value_counts (ages.map AGE_GROUP)

/-- The gender-distribution table (lines 153-159): patients as
`(Id, GENDER)` pairs are grouped by gender (group keys sorted ascending by
`groupby`), unique patient ids are counted per group, and rows are sorted
descending by count. -/
def gender_dist (patients : List (String × String)) : List (String × Nat) :=
  List.insertionSort (fun x y : String × Nat => y.2 ≤ x.2)
    ((List.insertionSort (fun a b : String => a ≤ b)
        (patients.map Prod.snd).dedup).map fun g =>
      (g, ((patients.filter fun p => p.2 = g).map Prod.fst).dedup.length))

/-- A condition (diagnosis) record: the referencing patient identifier and
the free-text description. -/
structure Cond where
  patient : String
  description : String
deriving DecidableEq, Repr

/-- A patient row as used by the merge: identifier and gender. -/
structure PatientRow where
  id : String
  gender : String
deriving DecidableEq, Repr

/-- The left merge `clinical_conditions.merge(patients, left_on="PATIENT",
right_on="Id", how="left")` (lines 233-238), restricted to the gender
field: every condition row is kept; it is paired with the gender of each
patient row whose id matches, or with `none` (NaN demographics) when no
patient matches. -/
def dx_demo (conds : List Cond) (patients : List PatientRow) :
    List (Cond × Option String) :=
  conds.flatMap fun c =>
    match patients.filter (fun p => p.id = c.patient) with
    | [] => [(c, none)]
    | ms => ms.map fun p => (c, some p.gender)

/-- The rows of the merged frame that carry a non-null gender, flattened to
`(gender, description, patient)` triples; `groupby(["GENDER",
"DESCRIPTION"])` silently drops rows whose group key is null. -/
def gdRows (conds : List Cond) (patients : List PatientRow) :
    List (String × String × String) :=
  (dx_demo conds patients).filterMap fun x =>
    x.2.map fun g => (g, x.1.description, x.1.patient)

/-- The number of distinct patient identifiers in the (gender, description)
group of the merged frame. -/
def nuniqueGD (conds : List Cond) (patients : List PatientRow)
    (g d : String) : Nat :=
  (((gdRows conds patients).filter fun r => r.1 = g ∧ r.2.1 = d).map
    fun r => r.2.2).dedup.length

/-- Ascending lexicographic order on the (gender, description) group keys,
as produced by `groupby(sort=True)`. -/
def relKeyGD (x y : String × String) : Prop :=
  x.1 < y.1 ∨ (x.1 = y.1 ∧ x.2 ≤ y.2)

/-- The row order requested by `sort_values(["GENDER", "UNIQUE_PATIENTS"],
ascending=[True, False])`: gender ascending, then unique-patient count
descending. -/
def relGD (x y : String × String × Nat) : Prop :=
  x.1 < y.1 ∨ (x.1 = y.1 ∧ y.2.2 ≤ x.2.2)

instance : DecidableRel relKeyGD := fun x y => by
  unfold relKeyGD; infer_instance

instance : DecidableRel relGD := fun x y => by
  unfold relGD; infer_instance

/-- The diagnoses-by-gender cross tabulation (lines 241-247): group the
merged rows by (gender, description) — null-gender rows being dropped by
`groupby` — count distinct patients per group, and sort by gender
ascending then unique-patient count descending. -/
def top_dx_by_gender (conds : List Cond) (patients : List PatientRow) :
    List (String × String × Nat) :=
  List.insertionSort relGD
    ((List.insertionSort relKeyGD
        ((gdRows conds patients).map fun r => (r.1, r.2.1)).dedup).map
      fun k => (k.1, k.2, nuniqueGD conds patients k.1 k.2))

/-! Concrete data used by the witnesses and the counterexample. -/

/-- A compile function that fails on every pattern, standing in for
`re.compile` applied to an invalid regular expression. -/
def failCompile : String → Except String (List Char → Bool) :=
  fun _ => Except.error "bad pattern"

/-- A compile function that succeeds on every pattern with a matcher that
never matches. -/
def okCompile : String → Except String (List Char → Bool) :=
  fun _ => Except.ok fun _ => false

/-- A matcher that rejects every text. -/
def matchNone : List Char → Bool := fun _ => false

/-- A matcher that accepts every text. -/
def matchAll : List Char → Bool := fun _ => true

/-- A small condition table used by witnesses: two records of the same
diagnosis from two distinct patients. -/
def rows0 : List Cond :=
  [⟨"p1", "Viral sinusitis (disorder)"⟩,
   ⟨"p2", "Viral sinusitis (disorder)"⟩]

/-- A small patient table used by witnesses. -/
def pats0 : List PatientRow := [⟨"p1", "M"⟩, ⟨"p2", "F"⟩]

/-- An age column of 16 patients realizing buckets with counts 3, 3, 3, 7;
all four percentages round up by 0.05, so the `PCT` column sums to 100.2. -/
def ages16 : List (Option Int) :=
  List.replicate 3 (some 5) ++ List.replicate 3 (some 20) ++
    List.replicate 3 (some 50) ++ List.replicate 7 (some 70)

/-! Helper lemmas. -/

lemma pairLtB_iff (x y : Nat × Nat) :
    pairLtB x y = true ↔ (x.1 < y.1 ∨ (x.1 = y.1 ∧ x.2 < y.2)) := by
  simp [pairLtB]

lemma tripleLtB_iff (x y : Date) :
    tripleLtB x y = true ↔
      (x.year < y.year ∨ (x.year = y.year ∧
        (x.month < y.month ∨ (x.month = y.month ∧ x.day < y.day)))) := by
  simp [tripleLtB, pairLtB]

/-- Claim C3: `compute_age_years` returns null exactly when the birth date is null;
otherwise it returns `as_of.year - birth.year`, decremented by one exactly
when `(as_of.month, as_of.day)` is lexicographically smaller than
`(birth.month, birth.day)`; and a birth date strictly in the future of the
as-of date yields a strictly negative age, not clamped to zero. -/
theorem C3_age_years_formula (b a : Date) :
    compute_age_years none a = none ∧
    (pairLtB (a.month, a.day) (b.month, b.day) = true →
      compute_age_years (some b) a = some (a.year - b.year - 1)) ∧
    (pairLtB (a.month, a.day) (b.month, b.day) = false →
      compute_age_years (some b) a = some (a.year - b.year)) ∧
    (tripleLtB a b = true →
      ∀ n, compute_age_years (some b) a = some n → n < 0) := by
  refine ⟨rfl, ?_, ?_, ?_⟩
  · intro h; simp [compute_age_years, h]
  · intro h; simp [compute_age_years, h]
  · intro h n hn
    rw [tripleLtB_iff] at h
    by_cases hp : pairLtB (a.month, a.day) (b.month, b.day) = true
    · rw [pairLtB_iff] at hp
      simp only [compute_age_years, hp, if_pos, Option.some.injEq] at hn
      simp only [pairLtB_iff] at hn
      omega
    · rw [pairLtB_iff] at hp
      simp only [compute_age_years, Option.some.injEq] at hn
      rw [if_neg (by rw [pairLtB_iff]; exact hp)] at hn
      simp only at hp
      omega

/-- Claim C3 witness: a birth date in 2030 against an as-of date in 2024 is in the
future and produces a negative, unclamped age. -/
theorem C3_age_years_formula_witness :
    tripleLtB ⟨2024, 6, 1⟩ ⟨2030, 1, 1⟩ = true ∧
    ∀ n, compute_age_years (some ⟨2030, 1, 1⟩) ⟨2024, 6, 1⟩ = some n →
      n < 0 :=
  ⟨by decide, (C3_age_years_formula ⟨2030, 1, 1⟩ ⟨2024, 6, 1⟩).2.2.2 (by decide)⟩

/-- Claim C9: for every non-null birth date `b`, the age of `b` as of `b` itself is
zero; and whenever the as-of date sits exactly on the birth month/day
boundary, moving it one calendar day earlier decreases the computed age by
exactly one. -/
theorem C9_birthday_boundary (b a : Date)
    (h1 : a.month = b.month) (h2 : a.day = b.day) :
    compute_age_years (some b) b = some 0 ∧
    ∃ n, compute_age_years (some b) a = some n ∧
      compute_age_years (some b) (prevDay a) = some (n - 1) := by
  have hself : pairLtB (a.month, a.day) (b.month, b.day) = false := by
    rw [← Bool.not_eq_true, pairLtB_iff]; omega
  constructor
  · have : pairLtB (b.month, b.day) (b.month, b.day) = false := by
      rw [← Bool.not_eq_true, pairLtB_iff]; omega
    simp [compute_age_years, this]
  · refine ⟨a.year - b.year, by simp [compute_age_years, hself], ?_⟩
    unfold prevDay
    split_ifs with hd hm
    · have hlt : pairLtB (a.month, a.day - 1) (b.month, b.day) = true := by
        rw [pairLtB_iff]; omega
      simp [compute_age_years, hlt]
    · have hlt : pairLtB (a.month - 1, daysInMonth a.year (a.month - 1))
          (b.month, b.day) = true := by
        rw [pairLtB_iff]; simp only; omega
      simp [compute_age_years, hlt]
    · have hlt : pairLtB (12, 31) (b.month, b.day) = false := by
        rw [← Bool.not_eq_true, pairLtB_iff]; simp only; omega
      simp only [compute_age_years, hlt, Bool.false_eq_true, if_false,
        Option.some.injEq]
      omega

/-- Claim C9 witness: at the 1990-06-15 birthday boundary in 2024, stepping the
as-of date one day earlier lowers the age by exactly one. -/
theorem C9_birthday_boundary_witness :
    compute_age_years (some ⟨1990, 6, 15⟩) ⟨1990, 6, 15⟩ = some 0 ∧
    ∃ n, compute_age_years (some ⟨1990, 6, 15⟩) ⟨2024, 6, 15⟩ = some n ∧
      compute_age_years (some ⟨1990, 6, 15⟩) (prevDay ⟨2024, 6, 15⟩) =
        some (n - 1) :=
  C9_birthday_boundary ⟨1990, 6, 15⟩ ⟨2024, 6, 15⟩ rfl rfl

/-- Claim C4: an invalid pattern (one the compile function rejects) supplied as
the exclude or the include pattern makes `build_clinical_filter` fail at
construction time with that very error: no predicate is ever returned, so
the failure cannot be deferred to per-record evaluation. -/
theorem C4_invalid_pattern_fails_fast
    (compile : String → Except String (List Char → Bool))
    (kws : Option (List String)) (ins : Option String) (s e : String)
    (hs : s ≠ "") (hc : compile s = Except.error e) :
    build_clinical_filter compile kws (some s) ins = Except.error e ∧
    (∀ exs exm, compileOpt compile exs = Except.ok exm →
      build_clinical_filter compile kws exs (some s) = Except.error e) := by
  constructor
  · simp [build_clinical_filter, compileOpt, hs, hc, Except.map, Except.bind]
  · intro exs exm hok
    simp only [build_clinical_filter, Except.bind]
    rw [hok]
    simp [compileOpt, hs, hc, Except.map]

/-- Claim C4 witness: a compile function that rejects the pattern `"["` makes the
builder return that error at construction time. -/
theorem C4_invalid_pattern_fails_fast_witness :
    ("[" : String) ≠ "" ∧ failCompile "[" = Except.error "bad pattern" ∧
    build_clinical_filter failCompile none (some "[") none =
      Except.error "bad pattern" :=
  ⟨by decide, rfl,
    (C4_invalid_pattern_fails_fast failCompile none none "[" "bad pattern"
      (by decide) rfl).1⟩

/-- Claim C10: passing an explicitly empty keyword sequence disables keyword
exclusion: no keyword matcher is compiled, so the built predicate performs
only the include- and exclude-pattern checks, whereas omitting the argument
(passing `None`) substitutes the default curated list; concretely, with no
patterns the empty-list predicate accepts "Full-time employment (finding)"
while the default predicate rejects it. -/
theorem C10_empty_keywords_disable_exclusion
    (compile : String → Except String (List Char → Bool))
    (exs ins : Option String) (exm inm : Option (List Char → Bool))
    (he : compileOpt compile exs = Except.ok exm)
    (hi : compileOpt compile ins = Except.ok inm) :
    build_clinical_filter compile (some []) exs ins =
      Except.ok (is_clinical inm none exm) ∧
    build_clinical_filter compile none exs ins =
      Except.ok (is_clinical inm (kwMatcher default_exclude_keywords) exm) ∧
    is_clinical none none none (some "Full-time employment (finding)") =
      true ∧
    is_clinical none (kwMatcher default_exclude_keywords) none
      (some "Full-time employment (finding)") = false := by
  refine ⟨?_, ?_, by decide, by decide⟩
  · simp only [build_clinical_filter, he, hi, Except.bind]
    rfl
  · simp only [build_clinical_filter, he, hi, Except.bind]
    rfl

/-- Claim C10 witness: with a trivially succeeding compile function and an
exclude pattern, the empty keyword list yields the predicate that checks
only the compiled pattern matchers. -/
theorem C10_empty_keywords_disable_exclusion_witness :
    compileOpt okCompile (some "x") = Except.ok (some matchNone) ∧
    build_clinical_filter okCompile (some []) (some "x") none =
      Except.ok (is_clinical none none (some matchNone)) :=
  ⟨rfl, (C10_empty_keywords_disable_exclusion okCompile (some "x") none
    (some matchNone) none rfl rfl).1⟩

/-- Claim C1: the classifier predicate is true exactly on a non-null description
whose stripped text is nonempty, passes the include matcher when one is
installed, and matches neither the keyword matcher nor the exclude matcher;
moreover a failing include check forces a false result whatever the exclude
matchers would say, which is the observable content of the include check
running before any exclusion. -/
theorem C1_predicate_evaluation_order
    (in_re kw_re ex_re : Option (List Char → Bool)) (desc : Option String) :
    (is_clinical in_re kw_re ex_re desc = true ↔
      ∃ s, desc = some s ∧ stripChars s.data ≠ [] ∧
        (∀ f, in_re = some f → f (stripChars s.data) = true) ∧
        (∀ f, kw_re = some f → f (stripChars s.data) = false) ∧
        (∀ f, ex_re = some f → f (stripChars s.data) = false)) ∧
    (∀ s f, desc = some s → in_re = some f → f (stripChars s.data) = false →
      is_clinical in_re kw_re ex_re desc = false) := by
  constructor
  · cases desc with
    | none => simp [is_clinical]
    | some s =>
      rcases in_re with - | f <;> rcases kw_re with - | g <;>
        rcases ex_re with - | h <;>
        simp [is_clinical, searchOpt, List.isEmpty_iff]
  · intro s f hdesc hin hf
    subst hdesc; subst hin
    simp [is_clinical, searchOpt, hf]

/-- Claim C1 witness: with an include matcher that rejects everything, a concrete
description is classified as not clinical even though neither exclusion
matcher would fire; and a plain description with no matchers installed is
clinical. -/
theorem C1_predicate_evaluation_order_witness :
    is_clinical (some matchNone) (some matchAll) (some matchAll)
      (some "Viral sinusitis (disorder)") = false :=
  (C1_predicate_evaluation_order (some matchNone) (some matchAll)
    (some matchAll) (some "Viral sinusitis (disorder)")).2
    "Viral sinusitis (disorder)" matchNone rfl rfl rfl

/-- Claim C7: the age bucketing realises exactly the half-open intervals
`[0,18)`, `[18,40)`, `[40,65)`, `[65,120)` with their labels, each age
falling in at most one bucket; a null age or an age outside every interval
gets no bucket; and whenever some entity has no bucket, the age
distribution table carries a row keyed by the null bucket whose count is
the number of such entities. -/
theorem C7_age_buckets (a : Int) (ages : List (Option Int)) :
    (AGE_GROUP (some a) = some "0-17" ↔ 0 ≤ a ∧ a < 18) ∧
    (AGE_GROUP (some a) = some "18-39" ↔ 18 ≤ a ∧ a < 40) ∧
    (AGE_GROUP (some a) = some "40-64" ↔ 40 ≤ a ∧ a < 65) ∧
    (AGE_GROUP (some a) = some "65+" ↔ 65 ≤ a ∧ a < 120) ∧
    (AGE_GROUP (some a) = none ↔ a < 0 ∨ 120 ≤ a) ∧
    AGE_GROUP (none : Option Int) = none ∧
    (0 < (ages.map AGE_GROUP).count none →
      (none, (ages.map AGE_GROUP).count none) ∈ age_dist ages) := by
  refine ⟨?_, ?_, ?_, ?_, ?_, rfl, ?_⟩
  · simp only [AGE_GROUP]; split_ifs <;> simp <;> omega
  · simp only [AGE_GROUP]; split_ifs <;> simp <;> omega
  · simp only [AGE_GROUP]; split_ifs <;> simp <;> omega
  · simp only [AGE_GROUP]; split_ifs <;> simp <;> omega
  · simp only [AGE_GROUP]; split_ifs <;> simp <;> omega
  · intro hpos
    have hmem : (none : Option String) ∈ (ages.map AGE_GROUP).dedup := by
      rw [ List.mem_dedup]
      exact List.count_pos_iff.mp hpos
    have hmem2 : ((none : Option String), (ages.map AGE_GROUP).count none) ∈
        (ages.map AGE_GROUP).dedup.map
          (fun k => (k, (ages.map AGE_GROUP).count k)) :=
      List.mem_map.mpr ⟨none, hmem, rfl⟩
    exact ((List.perm_insertionSort _ _).mem_iff).mpr hmem2

/-- Claim C7 witness: one patient with a null age produces the null-bucket row in
the age distribution table. -/
theorem C7_age_buckets_witness :
    0 < (([none, some 5] : List (Option Int)).map AGE_GROUP).count none ∧
    ((none : Option String),
        (([none, some 5] : List (Option Int)).map AGE_GROUP).count none) ∈
      age_dist [none, some 5] :=
  ⟨by decide, (C7_age_buckets 0 [none, some 5]).2.2.2.2.2.2 (by decide)⟩

lemma abs_roundHalfEven_sub (q : ℚ) : |(roundHalfEven q : ℚ) - q| ≤ 1 / 2 := by
  have h1 : (⌊q⌋ : ℚ) ≤ q := Int.floor_le q
  have h2 : q < (⌊q⌋ : ℚ) + 1 := Int.lt_floor_add_one q
  unfold roundHalfEven
  split_ifs <;> (rw [abs_le]; push_cast; constructor <;> linarith)

lemma abs_round1_sub (q : ℚ) : |round1 q - q| ≤ 1 / 20 := by
  have h := abs_roundHalfEven_sub (10 * q)
  rw [abs_le] at h ⊢
  unfold round1
  constructor <;> linarith [h.1, h.2]

lemma sum_map_div (T : ℚ) (l : List Nat) :
    (l.map fun c : Nat => (c : ℚ) / T * 100).sum = (l.sum : ℚ) / T * 100 := by
  induction l with
  | nil => simp
  | cons a l ih =>
    simp only [List.map_cons, List.sum_cons, ih]
    push_cast
    ring

lemma sum_round1_err (T : ℚ) (l : List Nat) :
    |(l.map fun c : Nat => round1 ((c : ℚ) / T * 100)).sum -
        (l.map fun c : Nat => (c : ℚ) / T * 100).sum| ≤ l.length * (1 / 20) := by
  induction l with
  | nil => simp
  | cons a l ih =>
    simp only [List.map_cons, List.sum_cons, List.length_cons]
    have h := abs_round1_sub ((a : ℚ) / T * 100)
    rw [abs_le] at h ih ⊢
    push_cast
    constructor <;> linarith [h.1, h.2, ih.1, ih.2]

lemma roundHalfEven_half (n : ℤ) (q : ℚ) (h : q = n + 1 / 2) :
    roundHalfEven q = if n % 2 = 0 then n else n + 1 := by
  have hf : ⌊q⌋ = n := by
    rw [h, Int.floor_eq_iff]
    norm_num
  rw [roundHalfEven, hf, h]
  norm_num

/-- Claim C5 counterexample: a population of 16 patients whose age buckets have
counts 7, 3, 3, 3 gives percentages 43.75, 18.75, 18.75, 18.75, all of
which round up by 0.05, so the `PCT` column of the age distribution table
sums to 100.2, outside the claimed ±0.1 tolerance. -/
theorem C5_counterexample_pct_sum :
    (pctColumn ((age_dist ages16).map Prod.snd)).sum = 501 / 5 ∧
    ¬ |(pctColumn ((age_dist ages16).map Prod.snd)).sum - 100| ≤ 1 / 10 := by
  have hlist : (age_dist ages16).map Prod.snd = [7, 3, 3, 3] := by decide
  have h7 : round1 ((175 : ℚ) / 4) = 219 / 5 := by
    rw [round1, roundHalfEven_half 437 (10 * ((175 : ℚ) / 4)) (by norm_num)]
    norm_num
  have h3 : round1 ((75 : ℚ) / 4) = 94 / 5 := by
    rw [round1, roundHalfEven_half 187 (10 * ((75 : ℚ) / 4)) (by norm_num)]
    norm_num
  rw [hlist]
  constructor <;> norm_num [pctColumn, h7, h3, abs_of_nonneg]

/-- Claim C5 amended: every `PCT` entry is the row count over the table total
times 100, rounded (half to even) to one decimal place; the rounding error
of each row is at most 0.05, so the `PCT` column of an `n`-row table sums to
100 within `n * 0.05` — the claimed ±0.1 tolerance holds only for tables of
at most two rows. -/
theorem C5_amended_pct_sum_bound (counts : List Nat) (h : 0 < counts.sum) :
    |(pctColumn counts).sum - 100| ≤ counts.length * (1 / 20) := by
  have hT : ((counts.sum : ℚ)) ≠ 0 := Nat.cast_ne_zero.mpr (by omega)
  have h1 := sum_round1_err (counts.sum : ℚ) counts
  have h2 := sum_map_div (counts.sum : ℚ) counts
  have h3 : ((counts.sum : ℚ)) / (counts.sum : ℚ) * 100 = 100 := by
    rw [div_self hT]; ring
  unfold pctColumn
  rw [h2, h3] at h1
  exact h1

/-- Claim C5 amended witness: a two-row table with counts 1 and 1 has a `PCT`
column summing to 100 within the two-row bound 0.1. -/
theorem C5_amended_pct_sum_bound_witness :
    0 < ([1, 1] : List Nat).sum ∧
    |(pctColumn [1, 1]).sum - 100| ≤ ([1, 1] : List Nat).length * (1 / 20) :=
  ⟨by decide, C5_amended_pct_sum_bound [1, 1] (by decide)⟩

instance : IsTotal (String × String × Nat) relGD where
  total x y := by
    unfold relGD
    rcases lt_trichotomy x.1 y.1 with h | h | h
    · exact Or.inl (Or.inl h)
    · rcases le_total y.2.2 x.2.2 with hc | hc
      · exact Or.inl (Or.inr ⟨h, hc⟩)
      · exact Or.inr (Or.inr ⟨h.symm, hc⟩)
    · exact Or.inr (Or.inl h)

instance : IsTrans (String × String × Nat) relGD where
  trans x y z hxy hyz := by
    unfold relGD at *
    rcases hxy with h1 | ⟨h1, c1⟩
    · rcases hyz with h2 | ⟨h2, c2⟩
      · exact Or.inl (h1.trans h2)
      · exact Or.inl (h2 ▸ h1)
    · rcases hyz with h2 | ⟨h2, c2⟩
      · exact Or.inl (h1 ▸ h2)
      · exact Or.inr ⟨h1.trans h2, c2.trans c1⟩

/-- Claim C8: the cross tabulation left-joins each condition record to the
patient table by patient identifier, so a condition with no matching
patient keeps a null gender and stays in the joined frame; the resulting
table rows are keyed by (gender, description) and carry the number of
distinct patient identifiers of the group; and the rows are ordered by
gender ascending and, within one gender, unique-patient count
descending. -/
theorem C8_dx_by_demographic (conds : List Cond) (patients : List PatientRow) :
    (∀ c ∈ conds, (∀ p ∈ patients, p.id ≠ c.patient) →
      (c, (none : Option String)) ∈ dx_demo conds patients) ∧
    (∀ x ∈ top_dx_by_gender conds patients,
      x.2.2 = nuniqueGD conds patients x.1 x.2.1) ∧
    (top_dx_by_gender conds patients).Pairwise relGD := by
  refine ⟨?_, ?_, ?_⟩
  · intro c hc hnone
    unfold dx_demo
    refine List.mem_flatMap.mpr ⟨c, hc, ?_⟩
    have hfil : patients.filter (fun p => p.id = c.patient) = [] := by
      rw [ List.filter_eq_nil_iff]
      intro p hp
      simpa using hnone p hp
    rw [hfil]
    simp
  · intro x hx
    have hx2 := (List.perm_insertionSort _ _).mem_iff.mp hx
    rcases List.mem_map.mp hx2 with ⟨k, -, rfl⟩
    rfl
  · exact List.sorted_insertionSort relGD _

/-- Claim C8 witness: a condition referencing patient p2, absent from a
single-patient table, is joined to a null gender and kept. -/
theorem C8_dx_by_demographic_witness :
    (⟨"p2", "Viral sinusitis (disorder)"⟩ : Cond) ∈ rows0 ∧
    ((⟨"p2", "Viral sinusitis (disorder)"⟩ : Cond), (none : Option String)) ∈
      dx_demo rows0 [⟨"p1", "M"⟩] :=
  ⟨by decide,
    (C8_dx_by_demographic rows0 [⟨"p1", "M"⟩]).1
      ⟨"p2", "Viral sinusitis (disorder)"⟩ (by decide) (by decide)⟩

lemma containsSub_iff (hay needle : List Char) :
    containsSub hay needle = true ↔ needle <:+: hay := by
  unfold containsSub
  rw [List.any_eq_true]
  constructor
  · rintro ⟨t, ht, hp⟩
    exact List.infix_iff_prefix_suffix.mpr
      ⟨t, List.isPrefixOf_iff_prefix.mp hp, (List.mem_tails _ _).mp ht⟩
  · intro h
    rcases List.infix_iff_prefix_suffix.mp h with ⟨t, hp, hs⟩
    exact ⟨t, (List.mem_tails _ _).mpr hs, List.isPrefixOf_iff_prefix.mpr hp⟩

lemma toLower_of_isWhitespace {c : Char} (h : c.isWhitespace = true) :
    c.toLower = c := by
  simp only [Char.isWhitespace, Bool.or_eq_true, decide_eq_true_eq] at h
  rcases h with ((h | h) | h) | h <;> subst h <;> decide

lemma lowerList_append (a b : List Char) :
    lowerList (a ++ b) = lowerList a ++ lowerList b :=
  List.map_append Char.toLower a b

lemma lowerList_of_ws :
    ∀ u : List Char, (∀ c ∈ u, c.isWhitespace = true) → lowerList u = u
  | [], _ => rfl
  | c :: u, hu => by
    have ht := toLower_of_isWhitespace (hu c (by simp))
    have hr := lowerList_of_ws u fun d hd => hu d (by simp [hd])
    unfold lowerList at hr ⊢
    simp only [List.map_cons, ht, hr]

lemma stripChars_decomp (l : List Char) :
    ∃ u v, l = u ++ stripChars l ++ v ∧
      (∀ c ∈ u, c.isWhitespace = true) ∧
      (∀ c ∈ v, c.isWhitespace = true) := by
  refine ⟨l.takeWhile Char.isWhitespace,
    ((l.dropWhile Char.isWhitespace).reverse.takeWhile
      Char.isWhitespace).reverse,
    ?_, fun c hc => List.mem_takeWhile_imp hc, ?_⟩
  · conv_lhs => rw [← List.takeWhile_append_dropWhile Char.isWhitespace l]
    rw [List.append_assoc]
    congr 1
    unfold stripChars
    calc l.dropWhile Char.isWhitespace
        = ((l.dropWhile Char.isWhitespace).reverse).reverse := by
          rw [List.reverse_reverse]
      _ = (((l.dropWhile Char.isWhitespace).reverse.takeWhile
              Char.isWhitespace) ++
            ((l.dropWhile Char.isWhitespace).reverse.dropWhile
              Char.isWhitespace)).reverse := by
          rw [List.takeWhile_append_dropWhile]
      _ = ((l.dropWhile Char.isWhitespace).reverse.dropWhile
              Char.isWhitespace).reverse ++
            ((l.dropWhile Char.isWhitespace).reverse.takeWhile
              Char.isWhitespace).reverse := by
          rw [List.reverse_append]
  · intro c hc
    rw [ List.mem_reverse] at hc
    exact List.mem_takeWhile_imp hc

lemma infix_drop_ws_left {needle w : List Char} (h0 : needle ≠ [])
    (hh : ∀ c, needle.head? = some c → c.isWhitespace = false) :
    ∀ u : List Char, (∀ c ∈ u, c.isWhitespace = true) →
      needle <:+: u ++ w → needle <:+: w
  | [], _, h => h
  | c :: u, hu, h => by
    have h2 : needle <:+: c :: (u ++ w) := by simpa using h
    rcases List.infix_cons_iff.mp h2 with hpre | hin
    · cases needle with
      | nil => exact absurd rfl h0
      | cons n ns =>
        rcases List.cons_prefix_cons.mp hpre with ⟨rfl, -⟩
        have hw := hh n rfl
        rw [hu n (by simp)] at hw
        cases hw
    · exact infix_drop_ws_left h0 hh u (fun d hd => hu d (by simp [hd])) hin

lemma infix_drop_ws_right {needle w v : List Char} (h0 : needle ≠ [])
    (hl : ∀ c, needle.getLast? = some c → c.isWhitespace = false)
    (hv : ∀ c ∈ v, c.isWhitespace = true)
    (h : needle <:+: w ++ v) : needle <:+: w := by
  have h2 : needle.reverse <:+: (w ++ v).reverse := List.reverse_infix.mpr h
  rw [List.reverse_append] at h2
  have h3 : needle.reverse <:+: w.reverse :=
    infix_drop_ws_left (by simpa using h0)
      (fun c hc => hl c (by rwa [ List.head?_reverse] at hc))
      v.reverse (fun c hc => hv c (by rwa [ List.mem_reverse] at hc)) h2
  exact List.reverse_infix.mp h3

lemma ciSearch_stripChars {k : String} {l : List Char}
    (h0 : lowerList k.data ≠ [])
    (hh : ∀ c, (lowerList k.data).head? = some c → c.isWhitespace = false)
    (hl : ∀ c, (lowerList k.data).getLast? = some c → c.isWhitespace = false)
    (hc : ciSearch k l = true) : ciSearch k (stripChars l) = true := by
  rw [ciSearch, containsSub_iff] at hc ⊢
  rcases stripChars_decomp l with ⟨u, v, hdec, hu, hv⟩
  have hls : lowerList l = u ++ (lowerList (stripChars l) ++ v) := by
    conv_lhs => rw [hdec]
    rw [lowerList_append, lowerList_append, lowerList_of_ws u hu,
      lowerList_of_ws v hv, List.append_assoc]
  rw [hls] at hc
  exact infix_drop_ws_right h0 hl hv (infix_drop_ws_left h0 hh u hu hc)

/-- Wellformedness of a keyword as a search needle: nonempty after
lowercasing, and neither starting nor ending with whitespace (so stripping
the searched text cannot destroy an occurrence). -/
def goodNeedle (k : String) : Bool :=
  !(lowerList k.data).isEmpty &&
    ((lowerList k.data).head?.elim false fun c => !c.isWhitespace) &&
    ((lowerList k.data).getLast?.elim false fun c => !c.isWhitespace)

lemma default_keywords_good :
    default_exclude_keywords.all goodNeedle = true := by decide

/-- Claim C2: keyword exclusion is case-insensitive substring search (the keyword
list being compiled into one alternation of escaped literals, matched with
search-anywhere semantics): every description containing a default exclude
keyword as a case-insensitive substring is classified as not clinical by
the classifier built with the default keyword list. -/
theorem C2_keyword_substring_exclusion
    (compile : String → Except String (List Char → Bool)) (d k : String)
    (hk : k ∈ default_exclude_keywords) (hc : ciSearch k d.data = true) :
    ∃ p, build_clinical_filter compile none none none = Except.ok p ∧
      p (some d) = false := by
  refine ⟨is_clinical none (kwMatcher default_exclude_keywords) none,
    rfl, ?_⟩
  have hg : goodNeedle k = true :=
    List.all_eq_true.mp default_keywords_good k hk
  rw [goodNeedle] at hg
  obtain ⟨⟨h1, h2⟩, h3⟩ := by simpa only [Bool.and_eq_true] using hg
  have h0 : lowerList k.data ≠ [] := by
    intro hnil
    rw [hnil] at h1
    simp at h1
  have hh : ∀ c, (lowerList k.data).head? = some c →
      c.isWhitespace = false := by
    intro c hcc
    rw [hcc] at h2
    simpa using h2
  have hlast : ∀ c, (lowerList k.data).getLast? = some c →
      c.isWhitespace = false := by
    intro c hcc
    rw [hcc] at h3
    simpa using h3
  have hstrip : ciSearch k (stripChars d.data) = true :=
    ciSearch_stripChars h0 hh hlast hc
  have hkne : k ≠ "" := by
    intro hke
    subst hke
    exact h0 rfl
  have hmem : k ∈ default_exclude_keywords.filter fun x => x ≠ "" :=
    List.mem_filter.mpr ⟨hk, by simpa using hkne⟩
  have hkmeq : kwMatcher default_exclude_keywords =
      some fun t => (default_exclude_keywords.filter fun x => x ≠ "").any
        fun k2 => ciSearch k2 t := rfl
  have hany : (default_exclude_keywords.filter fun x => x ≠ "").any
      (fun k2 => ciSearch k2 (stripChars d.data)) = true :=
    List.any_eq_true.mpr ⟨k, hmem, hstrip⟩
  by_cases hde : (stripChars d.data).isEmpty = true
  · simp [is_clinical, hde]
  · simp [is_clinical, searchOpt, hkmeq, hany, hde]
    exact ⟨k, hk, hkne, hstrip⟩

/-- Claim C2 witness: "Full-time employment (finding)" contains the default
keyword "employment" in the middle of the text, and the default classifier
rejects it. -/
theorem C2_keyword_substring_exclusion_witness :
    ("employment" ∈ default_exclude_keywords) ∧
    ciSearch "employment" "Full-time employment (finding)".data = true ∧
    ∃ p, build_clinical_filter okCompile none none none = Except.ok p ∧
      p (some "Full-time employment (finding)") = false :=
  ⟨by decide, by decide,
    C2_keyword_substring_exclusion okCompile
      "Full-time employment (finding)" "employment" (by decide) (by decide)⟩

end ClinicalDataAnalysis
